import Mathlib

/-!
Verification of the poster-validation subsystem of `fastapi-mongo-movies`.

Part 1 embeds the frontend movie service (`frontend/src/hooks/useAsyncData.ts`,
services layer): `processMovies` and the query-string construction of
`movieService.fetchMovies` / `movieService.getMovieByGenre`.

Part 2 models the background validation job engine (Probe, Worker Pool,
Job Coordinator) whose backend source is not part of the packaged sources;
those definitions are modelled from the spec, as marked in their doc comments.
-/

namespace MovieFrontend

/-- A movie record as consumed by the frontend service layer.  TypeScript's
optional / nullable fields (`poster`, `valid_poster`) are represented with
`Option`. -/
structure Movie where
  mid : String
  title : String
  year : Nat
  genres : List String
  poster : Option String
  valid_poster : Option Bool
  deriving DecidableEq, Repr

/-- The fixed placeholder poster URL from `processMovies`. -/
def defaultImg : String := "https://thumbs.dreamstime.com/b/film-real-25021714.jpg"

/-- JavaScript truthiness of the `poster` field: `undefined`/`null` and the
empty string are falsy, every other string is truthy. -/
def posterTruthy : Option String → Bool
  | none => false
  | some s => !s.isEmpty

/-- Embedding of `processMovies` (useAsyncData.ts lines 323-336): a movie is
kept as-is when its poster is truthy and `valid_poster === true`; otherwise it
is returned with its poster replaced by `defaultImg`. -/
def processMovies (movies : List Movie) : List Movie :=
  movies.map (fun movie =>
    if posterTruthy movie.poster && movie.valid_poster == some true then
      movie
    else
      { movie with poster := some defaultImg })

/-- Caller-side parameters of `movieService.fetchMovies`; each optional
TypeScript property becomes an `Option` field. -/
structure FetchMoviesParams where
  typ : Option String := none
  skip : Option Nat := none
  limit : Option Nat := none
  genre : Option String := none
  director : Option String := none
  minYear : Option Nat := none
  maxYear : Option Nat := none
  minRating : Option Nat := none
  search : Option String := none
  include_invalid_posters : Option Bool := none
  deriving DecidableEq, Repr

/-- Caller-side parameters of `movieService.getMovieByGenre`. -/
structure GenreParams where
  typ : Option String := none
  skip : Option Nat := none
  limit : Option Nat := none
  include_invalid_posters : Option Bool := none
  deriving DecidableEq, Repr

/-- One optional query entry: contributes a key/value pair when defined,
mirroring the `value !== undefined && value !== null` guard of the
`Object.entries(...).forEach` loop. -/
def optEntry {α : Type} (key : String) (f : α → String) : Option α → List (String × String)
  | none => []
  | some v => [(key, f v)]

/-- JavaScript `Boolean.prototype.toString`. -/
def jsBoolString (b : Bool) : String := if b then "true" else "false"

/-- Query entries built by `movieService.fetchMovies`: the object literal
`\x7b include_invalid_posters: false, ...params \x7d` keeps
`include_invalid_posters` defined in every case (caller value if set, `false`
otherwise), then every defined entry is appended to the query string. -/
def fetchMoviesQuery (p : FetchMoviesParams) : List (String × String) :=
  [("include_invalid_posters", jsBoolString (p.include_invalid_posters.getD false))] ++
  optEntry "type" id p.typ ++
  optEntry "skip" toString p.skip ++
  optEntry "limit" toString p.limit ++
  optEntry "genre" id p.genre ++
  optEntry "director" id p.director ++
  optEntry "minYear" toString p.minYear ++
  optEntry "maxYear" toString p.maxYear ++
  optEntry "minRating" toString p.minRating ++
  optEntry "search" id p.search

/-- Query entries built by `movieService.getMovieByGenre`, with the same
`include_invalid_posters` defaulting. -/
def genreQuery (p : GenreParams) : List (String × String) :=
  [("include_invalid_posters", jsBoolString (p.include_invalid_posters.getD false))] ++
  optEntry "type" id p.typ ++
  optEntry "skip" toString p.skip ++
  optEntry "limit" toString p.limit

/-- A movie whose poster already equals the placeholder while its
`valid_poster` verdict is absent (never checked). -/
def badMovie : Movie :=
  { mid := "m1", title := "t", year := 2000, genres := [],
    poster := some defaultImg, valid_poster := none }

/-- A movie with a truthy poster and a confirmed-valid verdict. -/
def goodMovie : Movie :=
  { mid := "m2", title := "u", year := 2001, genres := ["Drama"],
    poster := some "http://img.example/a.jpg", valid_poster := some true }

end MovieFrontend

namespace Validation

/-- Modelled from the spec: the tri-state verdict stored per catalog item
(backend `CatalogItem.validity`; the backend sources are not packaged). -/
inductive Validity
  | unknown
  | valid
  | invalid
  deriving DecidableEq, Repr

/-- Modelled from the spec: outcome of one probe. -/
inductive Outcome
  | valid
  | invalid
  | error
  deriving DecidableEq, Repr

/-- Modelled from the spec: what the network returns for one probe attempt. -/
inductive NetResponse
  | ok (contentType : String)
  | httpError (code : Nat)
  | timeout
  | connFail
  deriving DecidableEq, Repr

/-- Modelled from the spec: result of `Probe.check`, instrumented with the
number of network calls actually issued. -/
structure ProbeReport where
  outcome : Outcome
  reason : String
  networkCalls : Nat
  deriving DecidableEq, Repr

/-- Byte-level prefix test on strings (computable by structural recursion). -/
def strStarts (pre s : String) : Bool :=
  pre.data.isPrefixOf s.data

/-- Modelled from the spec: a URL is malformed when it is empty or has no
http/https scheme. -/
def malformedUrl (url : String) : Bool :=
  url.isEmpty || !(strStarts "http://" url || strStarts "https://" url)

/-- Modelled from the spec: classification of a single probe attempt.
Timeout / connection failure are error-class ("could not determine"); HTTP
4xx/5xx and a non-image content type are invalid-class ("determined broken"). -/
def classify : NetResponse → Outcome × String
  | .ok ct => if strStarts "image/" ct then (.valid, "ok") else (.invalid, "wrong-content-type")
  | .httpError code => (.invalid, "http-" ++ toString code)
  | .timeout => (.error, "timeout")
  | .connFail => (.error, "connection-failure")

/-- Modelled from the spec: `Probe.check`.  `net` gives the network's
response to the i-th attempt against this URL.  A malformed URL
short-circuits with no network call; otherwise one attempt is made, and at
most one retry is issued, only when the first attempt was error-class. -/
def probeCheck (net : Nat → NetResponse) (url : String) : ProbeReport :=
  if malformedUrl url then
    { outcome := .invalid, reason := "malformed", networkCalls := 0 }
  else
    let a0 := classify (net 0)
    if a0.1 = .error then
      let a1 := classify (net 1)
      { outcome := a1.1, reason := a1.2, networkCalls := 2 }
    else
      { outcome := a0.1, reason := a0.2, networkCalls := 1 }

/-- Modelled from the spec: a catalog item as seen by the engine (identifier,
optional image reference, verdict, last-checked timestamp). -/
structure CatalogItem where
  itemId : Nat
  imageRef : Option String
  validity : Validity
  lastCheckedAt : Option Nat
  deriving DecidableEq, Repr

/-- Modelled from the spec: the ephemeral result handed back by `revalidate`. -/
structure ValidationResult where
  itemId : Nat
  outcome : Outcome
  reason : String
  timestamp : Nat
  deriving DecidableEq, Repr

/-- Modelled from the spec: the five job lifecycle states. -/
inductive JobState
  | pending
  | running
  | completed
  | cancelled
  | failed
  deriving DecidableEq, Repr

/-- Modelled from the spec: a job's scope descriptor. -/
inductive Scope
  | all
  | unknownOnly
  | explicitList (ids : List Nat)
  deriving DecidableEq, Repr

/-- Modelled from the spec: job progress counters. -/
structure Counters where
  total : Nat
  processed : Nat
  valid : Nat
  invalid : Nat
  errored : Nat
  deriving DecidableEq, Repr

/-- Modelled from the spec: a job record, together with the engine-internal
work queue (identifiers not yet dispatched) and in-flight set (identifiers
whose probe is outstanding). -/
structure Job where
  jobId : Nat
  scope : Scope
  state : JobState
  counters : Counters
  cancelFlag : Bool
  queue : List Nat
  inFlight : List Nat
  finishedAt : Option Nat
  deriving DecidableEq, Repr

/-- Modelled from the spec: engine errors of the job coordinator taxonomy. -/
inductive EngineError
  | invalidScope
  | jobAlreadyActive
  | notFound
  | alreadyTerminal
  deriving DecidableEq, Repr

/-- Modelled from the spec: the whole engine state.  `net url i` is the
network's response to the i-th attempt against `url`; `conc` is the worker
pool's concurrency limit N; `storeUp` is catalog-store availability during
scope enumeration. -/
structure Engine where
  catalog : List CatalogItem
  jobs : List Job
  nextId : Nat
  net : String → Nat → NetResponse
  conc : Nat
  now : Nat
  storeUp : Bool

def JobState.isTerminal : JobState → Bool
  | .completed => true
  | .cancelled => true
  | .failed => true
  | _ => false

/-- A job is active when Pending or Running. -/
def Job.isActive (j : Job) : Bool :=
  j.state = JobState.pending || j.state = JobState.running

def Scope.isBulk : Scope → Bool
  | .all => true
  | .unknownOnly => true
  | .explicitList _ => false

/-- Two scopes are in the same bulk scope class. -/
def Scope.sameClass : Scope → Scope → Bool
  | .all, .all => true
  | .unknownOnly, .unknownOnly => true
  | _, _ => false

def Engine.findJob (e : Engine) (jid : Nat) : Option Job :=
  e.jobs.find? (fun j => j.jobId = jid)

def Engine.findItem (e : Engine) (iid : Nat) : Option CatalogItem :=
  e.catalog.find? (fun it => it.itemId = iid)

/-- Replace the job whose identifier matches `nj.jobId` by `nj`. -/
def Engine.setJob (e : Engine) (nj : Job) : Engine :=
  { e with jobs := e.jobs.map (fun j => if j.jobId = nj.jobId then nj else j) }

/-- Modelled from the spec: scope enumeration against the verdict store. -/
def enumerateScope (e : Engine) : Scope → List Nat
  | .all => e.catalog.map (·.itemId)
  | .unknownOnly => (e.catalog.filter (fun it => it.validity = Validity.unknown)).map (·.itemId)
  | .explicitList ids => ids

/-- Modelled from the spec: `createJob(scope)`.  An empty explicit scope is
rejected with InvalidScope; a bulk scope conflicting with an active job of
the same scope class is rejected with JobAlreadyActive and creates no job;
store unavailability during enumeration yields a job born Failed; otherwise
the job is created Running with `total` fixed by enumeration. -/
def createJob (e : Engine) (sc : Scope) : Except EngineError Nat × Engine :=
  if sc = Scope.explicitList [] then (.error .invalidScope, e)
  else
    if sc.isBulk && e.jobs.any (fun j => j.isActive && Scope.sameClass sc j.scope) then
      (.error .jobAlreadyActive, e)
    else if !e.storeUp then
      let j : Job :=
        { jobId := e.nextId, scope := sc, state := .failed
          counters := { total := 0, processed := 0, valid := 0, invalid := 0, errored := 0 }
          cancelFlag := false, queue := [], inFlight := [], finishedAt := some e.now }
      (.ok e.nextId, { e with jobs := j :: e.jobs, nextId := e.nextId + 1 })
    else
      let ids := enumerateScope e sc
      let j : Job :=
        { jobId := e.nextId, scope := sc, state := .running
          counters := { total := ids.length, processed := 0, valid := 0, invalid := 0, errored := 0 }
          cancelFlag := false, queue := ids, inFlight := [], finishedAt := none }
      (.ok e.nextId, { e with jobs := j :: e.jobs, nextId := e.nextId + 1 })

/-- Modelled from the spec: `getStatus(jobID)`, a read-only snapshot. -/
def getStatus (e : Engine) (jid : Nat) : Except EngineError (JobState × Counters) :=
  match e.findJob jid with
  | none => .error .notFound
  | some j => .ok (j.state, j.counters)

/-- Modelled from the spec: `cancel(jobID)`.  NotFound when absent,
AlreadyTerminal when the job already reached a terminal state; from
Pending/Running it sets the cancellation flag (only). -/
def cancel (e : Engine) (jid : Nat) : Except EngineError Unit × Engine :=
  match e.findJob jid with
  | none => (.error .notFound, e)
  | some j =>
    if j.state.isTerminal then (.error .alreadyTerminal, e)
    else (.ok (), e.setJob { j with cancelFlag := true })

/-- Modelled from the spec: `delete job record(jobID)`: bookkeeping removal
only. -/
def deleteJob (e : Engine) (jid : Nat) : Except EngineError Unit × Engine :=
  match e.findJob jid with
  | none => (.error .notFound, e)
  | some _ => (.ok (), { e with jobs := e.jobs.filter (fun j => j.jobId ≠ jid) })

/-- Modelled from the spec: commit one probe outcome to the verdict store.
Outcome error means "could not determine" and leaves the item untouched;
valid/invalid write the verdict with the current timestamp. -/
def commitResult (e : Engine) (iid : Nat) (o : Outcome) : Engine :=
  match o with
  | .error => e
  | .valid =>
    { e with catalog := e.catalog.map (fun it =>
        if it.itemId = iid then { it with validity := .valid, lastCheckedAt := some e.now } else it) }
  | .invalid =>
    { e with catalog := e.catalog.map (fun it =>
        if it.itemId = iid then { it with validity := .invalid, lastCheckedAt := some e.now } else it) }

/-- Probe an item's image reference (a missing item or missing reference is
an inconclusive probe / malformed URL respectively). -/
def probeItem (e : Engine) (iid : Nat) : ProbeReport :=
  match e.findItem iid with
  | none => { outcome := .error, reason := "missing-item", networkCalls := 0 }
  | some it =>
    let url := it.imageRef.getD ""
    probeCheck (e.net url) url

/-- Modelled from the spec: `revalidate(itemID)`: always calls Probe on the
item's image reference and commits the result, bypassing stored validity. -/
def revalidate (e : Engine) (iid : Nat) : Except EngineError ValidationResult × Engine :=
  match e.findItem iid with
  | none => (.error .notFound, e)
  | some it =>
    let url := it.imageRef.getD ""
    let rep := probeCheck (e.net url) url
    let res : ValidationResult :=
      { itemId := iid, outcome := rep.outcome, reason := rep.reason, timestamp := e.now }
    (.ok res, commitResult e iid rep.outcome)

/-- Fold one probe outcome into the job counters. -/
def Counters.bump (c : Counters) (o : Outcome) : Counters :=
  match o with
  | .valid => { c with processed := c.processed + 1, valid := c.valid + 1 }
  | .invalid => { c with processed := c.processed + 1, invalid := c.invalid + 1 }
  | .error => { c with processed := c.processed + 1, errored := c.errored + 1 }

/-- Modelled from the spec: a worker takes the next queued identifier, only
when the job is Running, not cancelled, and fewer than N probes are in
flight. -/
def dispatchStep (e : Engine) (jid : Nat) : Option Engine :=
  match e.findJob jid with
  | none => none
  | some j =>
    match j.queue with
    | [] => none
    | iid :: rest =>
      if j.state = JobState.running ∧ j.cancelFlag = false ∧ j.inFlight.length < e.conc then
        some (e.setJob { j with queue := rest, inFlight := iid :: j.inFlight })
      else none

/-- Modelled from the spec: an in-flight probe finishes: its result is
committed to the verdict store and folded into the job counters. -/
def finishStep (e : Engine) (jid iid : Nat) : Option Engine :=
  match e.findJob jid with
  | none => none
  | some j =>
    if j.state = JobState.running ∧ iid ∈ j.inFlight then
      let o := (probeItem e iid).outcome
      some ((commitResult e iid o).setJob
        { j with inFlight := j.inFlight.erase iid, counters := j.counters.bump o })
    else none

/-- Modelled from the spec: a Running job whose queue and in-flight set are
drained, with no cancellation observed, becomes Completed. -/
def completeStep (e : Engine) (jid : Nat) : Option Engine :=
  match e.findJob jid with
  | none => none
  | some j =>
    if j.state = JobState.running ∧ j.cancelFlag = false ∧ j.queue = [] ∧ j.inFlight = [] then
      some (e.setJob { j with state := .completed, finishedAt := some e.now })
    else none

/-- Modelled from the spec: once the cancellation flag is observed and
in-flight work has drained, the job becomes Cancelled (queued identifiers are
abandoned). -/
def cancelObserveStep (e : Engine) (jid : Nat) : Option Engine :=
  match e.findJob jid with
  | none => none
  | some j =>
    if j.state = JobState.running ∧ j.cancelFlag = true ∧ j.inFlight = [] then
      some (e.setJob { j with state := .cancelled, finishedAt := some e.now })
    else none

/-- One observable transition of the engine: either a worker-pool micro step
or one of the coordinator API calls. -/
inductive Step : Engine → Engine → Prop
  | dispatch (jid : Nat) (e e' : Engine) : dispatchStep e jid = some e' → Step e e'
  | finishProbe (jid iid : Nat) (e e' : Engine) : finishStep e jid iid = some e' → Step e e'
  | complete (jid : Nat) (e e' : Engine) : completeStep e jid = some e' → Step e e'
  | cancelObserve (jid : Nat) (e e' : Engine) : cancelObserveStep e jid = some e' → Step e e'
  | apiCreate (sc : Scope) (e : Engine) : Step e (createJob e sc).2
  | apiCancel (jid : Nat) (e : Engine) : Step e (cancel e jid).2
  | apiRevalidate (iid : Nat) (e : Engine) : Step e (revalidate e iid).2
  | apiDelete (jid : Nat) (e : Engine) : Step e (deleteJob e jid).2

/-- Reflexive-transitive closure of `Step`. -/
def Steps : Engine → Engine → Prop := Relation.ReflTransGen Step

/-- Structural coherence of one job record. -/
def Job.Coherent (conc : Nat) (j : Job) : Prop :=
  j.counters.processed = j.counters.valid + j.counters.invalid + j.counters.errored ∧
  j.counters.processed + j.queue.length + j.inFlight.length = j.counters.total ∧
  j.inFlight.length ≤ conc ∧
  ((j.state = JobState.completed ∨ j.state = JobState.failed) → j.queue = [] ∧ j.inFlight = []) ∧
  (j.state = JobState.cancelled → j.inFlight = [])

instance (conc : Nat) (j : Job) : Decidable (Job.Coherent conc j) := by
  unfold Job.Coherent
  infer_instance

/-- Engine invariant: every job is coherent, identifiers are below the
allocation counter, and job identifiers are pairwise distinct. -/
def Engine.Inv (e : Engine) : Prop :=
  (∀ j ∈ e.jobs, Job.Coherent e.conc j ∧ j.jobId < e.nextId) ∧
  (e.jobs.map Job.jobId).Nodup

instance (e : Engine) : Decidable (Engine.Inv e) := by
  unfold Engine.Inv
  infer_instance

/-- Pointwise order on the five counters. -/
def Counters.le (c d : Counters) : Prop :=
  c.total ≤ d.total ∧ c.processed ≤ d.processed ∧ c.valid ≤ d.valid ∧
  c.invalid ≤ d.invalid ∧ c.errored ≤ d.errored

instance (c d : Counters) : Decidable (Counters.le c d) := by
  unfold Counters.le
  infer_instance

/-- One deterministic scheduler move for the job `jid`: drain in-flight work
first, observe cancellation, otherwise dispatch or complete. -/
def stepJobOnce (e : Engine) (jid : Nat) : Option Engine :=
  match e.findJob jid with
  | none => none
  | some j =>
    if j.state = JobState.running then
      if j.cancelFlag then
        match j.inFlight with
        | [] => cancelObserveStep e jid
        | iid :: _ => finishStep e jid iid
      else
        match j.inFlight with
        | iid :: _ => finishStep e jid iid
        | [] =>
          match j.queue with
          | [] => completeStep e jid
          | _ :: _ => dispatchStep e jid
    else none

/-- Run the scheduler on job `jid` until it makes no move or fuel runs out. -/
def runToTerminal (e : Engine) (jid : Nat) : Nat → Engine
  | 0 => e
  | fuel + 1 =>
    match stepJobOnce e jid with
    | none => e
    | some e' => runToTerminal e' jid fuel

/-- Scheduler fuel sufficient to drain the job. -/
def Job.fuelOf (j : Job) : Nat := 2 * j.queue.length + j.inFlight.length + 1

/-- Overwrite the stored validity of one catalog item (used to state that
`revalidate` is insensitive to the stored verdict). -/
def setValidity (e : Engine) (iid : Nat) (v : Validity) : Engine :=
  { e with catalog := e.catalog.map (fun it =>
      if it.itemId = iid then { it with validity := v } else it) }

/-- A fixed network behavior for concrete evaluations: every attempt on every
URL times out. -/
def timeoutNet : String → Nat → NetResponse := fun _ _ => NetResponse.timeout

/-- A fixed ill-behaving per-attempt network: every attempt times out. -/
def exNet : Nat → NetResponse := fun _ => NetResponse.timeout

/-- A concrete unchecked catalog item. -/
def exItem : CatalogItem :=
  { itemId := 0, imageRef := some "http://img.example/p.jpg",
    validity := .unknown, lastCheckedAt := none }

/-- A concrete running bulk job over `exItem`. -/
def exJob : Job :=
  { jobId := 0, scope := .all, state := .running
    counters := { total := 1, processed := 0, valid := 0, invalid := 0, errored := 0 }
    cancelFlag := false, queue := [0], inFlight := [], finishedAt := none }

/-- A concrete Completed bulk job. -/
def exJobDone : Job :=
  { jobId := 0, scope := .all, state := .completed
    counters := { total := 1, processed := 1, valid := 1, invalid := 0, errored := 0 }
    cancelFlag := false, queue := [], inFlight := [], finishedAt := some 0 }

/-- A small concrete engine used to instantiate the universally quantified
theorems: one unchecked item, one running job over it. -/
def exEngine : Engine :=
  { catalog := [exItem], jobs := [exJob],
    nextId := 1, net := timeoutNet, conc := 10, now := 0, storeUp := true }

/-- Like `exEngine` but with the bulk job already Completed. -/
def exEngineDone : Engine :=
  { catalog := [{ itemId := 0, imageRef := some "http://img.example/p.jpg",
                  validity := .valid, lastCheckedAt := some 0 }]
    jobs := [exJobDone],
    nextId := 1, net := timeoutNet, conc := 10, now := 1, storeUp := true }

lemma findJob_mem {e : Engine} {jid : Nat} {j : Job} (h : e.findJob jid = some j) :
    j ∈ e.jobs ∧ j.jobId = jid := by
  refine ⟨List.mem_of_find?_eq_some h, ?_⟩
  simpa using List.find?_some h

lemma find?_key_eq_of_mem {l : List Job} {jid : Nat} {j : Job}
    (hN : (l.map Job.jobId).Nodup) (hm : j ∈ l) (hid : j.jobId = jid) :
    l.find? (fun x => x.jobId = jid) = some j := by
  induction l with
  | nil => cases hm
  | cons a t ih =>
    rcases List.mem_cons.mp hm with rfl | hmt
    · exact List.find?_cons_of_pos _ (by simp [hid])
    · have hne : ¬ (a.jobId = jid) := by
        intro haj
        have hmem : j.jobId ∈ t.map Job.jobId := List.mem_map_of_mem _ hmt
        rw [hid, ← haj] at hmem
        exact (List.nodup_cons.mp (by simpa using hN)).1 hmem
      rw [List.find?_cons_of_neg _ (by simp [hne])]
      exact ih (List.nodup_cons.mp (by simpa using hN)).2 hmt

lemma findJob_eq_of_mem {e : Engine} {jid : Nat} {j : Job}
    (hN : (e.jobs.map Job.jobId).Nodup) (hm : j ∈ e.jobs) (hid : j.jobId = jid) :
    e.findJob jid = some j :=
  find?_key_eq_of_mem hN hm hid

lemma findJob_setJob (e : Engine) (nj : Job) (jid : Nat) :
    (e.setJob nj).findJob jid
      = (e.findJob jid).map (fun y => if y.jobId = nj.jobId then nj else y) := by
  unfold Engine.setJob Engine.findJob
  show (e.jobs.map fun j => if j.jobId = nj.jobId then nj else j).find? _ = _
  rw [List.find?_map]
  have hpf : ((fun j : Job => decide (j.jobId = jid)) ∘
      fun j : Job => if j.jobId = nj.jobId then nj else j)
      = fun j : Job => decide (j.jobId = jid) := by
    funext y
    by_cases h : y.jobId = nj.jobId <;> simp [h]
  rw [hpf]

lemma setJob_catalog (e : Engine) (nj : Job) : (e.setJob nj).catalog = e.catalog := rfl

lemma setJob_nextId (e : Engine) (nj : Job) : (e.setJob nj).nextId = e.nextId := rfl

lemma setJob_conc (e : Engine) (nj : Job) : (e.setJob nj).conc = e.conc := rfl

lemma setJob_keys (e : Engine) (nj : Job) :
    (e.setJob nj).jobs.map Job.jobId = e.jobs.map Job.jobId := by
  show (e.jobs.map fun j => if j.jobId = nj.jobId then nj else j).map Job.jobId = _
  rw [List.map_map]
  have hpf : (Job.jobId ∘ fun j : Job => if j.jobId = nj.jobId then nj else j) = Job.jobId := by
    funext y
    by_cases h : y.jobId = nj.jobId <;> simp [h]
  rw [hpf]

lemma commitResult_jobs (e : Engine) (iid : Nat) (o : Outcome) :
    (commitResult e iid o).jobs = e.jobs := by
  cases o <;> rfl

lemma commitResult_nextId (e : Engine) (iid : Nat) (o : Outcome) :
    (commitResult e iid o).nextId = e.nextId := by
  cases o <;> rfl

lemma commitResult_conc (e : Engine) (iid : Nat) (o : Outcome) :
    (commitResult e iid o).conc = e.conc := by
  cases o <;> rfl

lemma commitResult_findJob (e : Engine) (iid : Nat) (o : Outcome) (jid : Nat) :
    (commitResult e iid o).findJob jid = e.findJob jid := by
  unfold Engine.findJob
  rw [commitResult_jobs]

lemma Engine.Inv.setJob {e : Engine} {nj : Job} (hInv : e.Inv)
    (hco : Job.Coherent e.conc nj) (hid : nj.jobId < e.nextId) : (e.setJob nj).Inv := by
  obtain ⟨h1, h2⟩ := hInv
  constructor
  · intro x hx
    rcases List.mem_map.mp hx with ⟨y, hy, hxy⟩
    rw [setJob_conc, setJob_nextId]
    by_cases hcase : y.jobId = nj.jobId
    · rw [if_pos hcase] at hxy
      exact hxy ▸ ⟨hco, hid⟩
    · rw [if_neg hcase] at hxy
      exact hxy ▸ h1 y hy
  · rw [setJob_keys]
    exact h2

lemma dispatchStep_eq {e e' : Engine} {jid : Nat} (h : dispatchStep e jid = some e') :
    ∃ j iid rest, e.findJob jid = some j ∧ j.queue = iid :: rest ∧
      j.state = JobState.running ∧ j.cancelFlag = false ∧ j.inFlight.length < e.conc ∧
      e' = e.setJob { j with queue := rest, inFlight := iid :: j.inFlight } := by
  unfold dispatchStep at h
  split at h
  · cases h
  · rename_i j hf
    split at h
    · cases h
    · rename_i iid rest hq
      split at h
      · rename_i hc
        exact ⟨j, iid, rest, hf, hq, hc.1, hc.2.1, hc.2.2, (Option.some.inj h).symm⟩
      · cases h

lemma finishStep_eq {e e' : Engine} {jid iid : Nat} (h : finishStep e jid iid = some e') :
    ∃ j, e.findJob jid = some j ∧ j.state = JobState.running ∧ iid ∈ j.inFlight ∧
      e' = (commitResult e iid (probeItem e iid).outcome).setJob
        { j with inFlight := j.inFlight.erase iid,
                 counters := j.counters.bump (probeItem e iid).outcome } := by
  unfold finishStep at h
  split at h
  · cases h
  · rename_i j hf
    split at h
    · rename_i hc
      exact ⟨j, hf, hc.1, hc.2, (Option.some.inj h).symm⟩
    · cases h

lemma completeStep_eq {e e' : Engine} {jid : Nat} (h : completeStep e jid = some e') :
    ∃ j, e.findJob jid = some j ∧ j.state = JobState.running ∧ j.cancelFlag = false ∧
      j.queue = [] ∧ j.inFlight = [] ∧
      e' = e.setJob { j with state := .completed, finishedAt := some e.now } := by
  unfold completeStep at h
  split at h
  · cases h
  · rename_i j hf
    split at h
    · rename_i hc
      exact ⟨j, hf, hc.1, hc.2.1, hc.2.2.1, hc.2.2.2, (Option.some.inj h).symm⟩
    · cases h

lemma cancelObserveStep_eq {e e' : Engine} {jid : Nat} (h : cancelObserveStep e jid = some e') :
    ∃ j, e.findJob jid = some j ∧ j.state = JobState.running ∧ j.cancelFlag = true ∧
      j.inFlight = [] ∧
      e' = e.setJob { j with state := .cancelled, finishedAt := some e.now } := by
  unfold cancelObserveStep at h
  split at h
  · cases h
  · rename_i j hf
    split at h
    · rename_i hc
      exact ⟨j, hf, hc.1, hc.2.1, hc.2.2, (Option.some.inj h).symm⟩
    · cases h

lemma Engine.Inv.dispatch {e e' : Engine} {jid : Nat} (hInv : e.Inv)
    (h : dispatchStep e jid = some e') : e'.Inv := by
  obtain ⟨j, iid, rest, hf, hq, hs, hcf, hlt, rfl⟩ := dispatchStep_eq h
  obtain ⟨hm, hid⟩ := findJob_mem hf
  obtain ⟨hco, hidlt⟩ := hInv.1 j hm
  refine hInv.setJob ?_ hidlt
  obtain ⟨h1, h2, h3, h4, h5⟩ := hco
  rw [hq] at h2
  unfold Job.Coherent
  dsimp only
  refine ⟨h1, by simp at h2 ⊢; omega, by simp; omega, ?_, ?_⟩
  · intro hcs
    rcases hcs with hcs | hcs <;> rw [hs] at hcs <;> cases hcs
  · intro hcs
    rw [hs] at hcs
    cases hcs

lemma Engine.Inv.finish {e e' : Engine} {jid iid : Nat} (hInv : e.Inv)
    (h : finishStep e jid iid = some e') : e'.Inv := by
  obtain ⟨j, hf, hs, hmem, rfl⟩ := finishStep_eq h
  obtain ⟨hm, hid⟩ := findJob_mem hf
  obtain ⟨hco, hidlt⟩ := hInv.1 j hm
  set o := (probeItem e iid).outcome with ho
  have hInv' : (commitResult e iid o).Inv := by
    constructor
    · intro x hx
      rw [commitResult_jobs] at hx
      rw [commitResult_conc, commitResult_nextId]
      exact hInv.1 x hx
    · rw [commitResult_jobs]
      exact hInv.2
  refine hInv'.setJob ?_ (by rw [commitResult_nextId]; exact hidlt)
  obtain ⟨h1, h2, h3, h4, h5⟩ := hco
  have hlen : (j.inFlight.erase iid).length = j.inFlight.length - 1 :=
    List.length_erase_of_mem hmem
  have hpos : 1 ≤ j.inFlight.length := List.length_pos.mpr (by
    intro hnil
    rw [hnil] at hmem
    cases hmem)
  rw [commitResult_conc]
  unfold Job.Coherent
  dsimp only
  cases o <;> unfold Counters.bump <;> dsimp only
  · refine ⟨by omega, by rw [hlen]; omega, by rw [hlen]; omega, ?_, ?_⟩
    · intro hcs
      rcases hcs with hcs | hcs <;> rw [hs] at hcs <;> cases hcs
    · intro hcs
      rw [hs] at hcs
      cases hcs
  · refine ⟨by omega, by rw [hlen]; omega, by rw [hlen]; omega, ?_, ?_⟩
    · intro hcs
      rcases hcs with hcs | hcs <;> rw [hs] at hcs <;> cases hcs
    · intro hcs
      rw [hs] at hcs
      cases hcs
  · refine ⟨by omega, by rw [hlen]; omega, by rw [hlen]; omega, ?_, ?_⟩
    · intro hcs
      rcases hcs with hcs | hcs <;> rw [hs] at hcs <;> cases hcs
    · intro hcs
      rw [hs] at hcs
      cases hcs

lemma Engine.Inv.complete {e e' : Engine} {jid : Nat} (hInv : e.Inv)
    (h : completeStep e jid = some e') : e'.Inv := by
  obtain ⟨j, hf, hs, hcf, hq, hifl, rfl⟩ := completeStep_eq h
  obtain ⟨hm, hid⟩ := findJob_mem hf
  obtain ⟨hco, hidlt⟩ := hInv.1 j hm
  refine hInv.setJob ?_ hidlt
  obtain ⟨h1, h2, h3, h4, h5⟩ := hco
  exact ⟨h1, h2, h3, fun _ => ⟨hq, hifl⟩, fun _ => hifl⟩

lemma Engine.Inv.cancelObserve {e e' : Engine} {jid : Nat} (hInv : e.Inv)
    (h : cancelObserveStep e jid = some e') : e'.Inv := by
  obtain ⟨j, hf, hs, hcf, hifl, rfl⟩ := cancelObserveStep_eq h
  obtain ⟨hm, hid⟩ := findJob_mem hf
  obtain ⟨hco, hidlt⟩ := hInv.1 j hm
  refine hInv.setJob ?_ hidlt
  obtain ⟨h1, h2, h3, h4, h5⟩ := hco
  refine ⟨h1, h2, h3, ?_, fun _ => hifl⟩
  intro hcs
  rcases hcs with hcs | hcs <;> cases hcs

lemma Engine.Inv.commitResult {e : Engine} (hInv : e.Inv) (iid : Nat) (o : Outcome) :
    (commitResult e iid o).Inv := by
  constructor
  · intro x hx
    rw [commitResult_jobs] at hx
    rw [commitResult_conc, commitResult_nextId]
    exact hInv.1 x hx
  · rw [commitResult_jobs]
    exact hInv.2

lemma Engine.Inv.create {e : Engine} (hInv : e.Inv) (sc : Scope) :
    ((createJob e sc).2).Inv := by
  have hcons : ∀ (j : Job), j.jobId = e.nextId → Job.Coherent e.conc j →
      ({ e with jobs := j :: e.jobs, nextId := e.nextId + 1 } : Engine).Inv := by
    intro j hjid hco
    constructor
    · intro x hx
      dsimp only at hx ⊢
      rcases List.mem_cons.mp hx with rfl | hxe
      · exact ⟨hco, by omega⟩
      · obtain ⟨hc, hlt⟩ := hInv.1 x hxe
        exact ⟨hc, by omega⟩
    · refine List.nodup_cons.mpr ⟨?_, hInv.2⟩
      intro hmem
      rcases List.mem_map.mp hmem with ⟨y, hy, hyid⟩
      have := (hInv.1 y hy).2
      omega
  unfold createJob
  split
  · exact hInv
  · split
    · exact hInv
    · split
      · refine hcons _ rfl ?_
        unfold Job.Coherent
        simp
      · refine hcons _ rfl ?_
        unfold Job.Coherent
        dsimp only
        refine ⟨rfl, by simp, by simp, ?_, ?_⟩
        · intro hcs
          rcases hcs with hcs | hcs <;> cases hcs
        · intro hcs
          cases hcs

lemma Engine.Inv.cancelApi {e : Engine} (hInv : e.Inv) (jid : Nat) :
    ((cancel e jid).2).Inv := by
  unfold cancel
  split
  · exact hInv
  · rename_i j hf
    split
    · exact hInv
    · obtain ⟨hm, hid⟩ := findJob_mem hf
      obtain ⟨hco, hidlt⟩ := hInv.1 j hm
      exact hInv.setJob hco hidlt

lemma Engine.Inv.revalidateApi {e : Engine} (hInv : e.Inv) (iid : Nat) :
    ((revalidate e iid).2).Inv := by
  unfold revalidate
  split
  · exact hInv
  · exact hInv.commitResult _ _

lemma Engine.Inv.deleteApi {e : Engine} (hInv : e.Inv) (jid : Nat) :
    ((deleteJob e jid).2).Inv := by
  unfold deleteJob
  split
  · exact hInv
  · constructor
    · intro x hx
      exact hInv.1 x (List.mem_of_mem_filter hx)
    · exact hInv.2.sublist (List.Sublist.map Job.jobId (List.filter_sublist _))

lemma Engine.Inv.step {e e' : Engine} (hInv : e.Inv) (h : Step e e') : e'.Inv := by
  cases h with
  | dispatch jid e e' hs => exact hInv.dispatch hs
  | finishProbe jid iid e e' hs => exact hInv.finish hs
  | complete jid e e' hs => exact hInv.complete hs
  | cancelObserve jid e e' hs => exact hInv.cancelObserve hs
  | apiCreate sc e => exact hInv.create sc
  | apiCancel jid e => exact hInv.cancelApi jid
  | apiRevalidate iid e => exact hInv.revalidateApi iid
  | apiDelete jid e => exact hInv.deleteApi jid

lemma Engine.Inv.steps {e e' : Engine} (hInv : e.Inv) (h : Steps e e') : e'.Inv := by
  induction h with
  | refl => exact hInv
  | tail _ hbc ih => exact ih.step hbc

lemma Counters.le_refl (c : Counters) : Counters.le c c :=
  ⟨Nat.le_refl _, Nat.le_refl _, Nat.le_refl _, Nat.le_refl _, Nat.le_refl _⟩

lemma Counters.le_trans {a b c : Counters} (h1 : Counters.le a b) (h2 : Counters.le b c) :
    Counters.le a c := by
  obtain ⟨x1, x2, x3, x4, x5⟩ := h1
  obtain ⟨y1, y2, y3, y4, y5⟩ := h2
  exact ⟨Nat.le_trans x1 y1, Nat.le_trans x2 y2, Nat.le_trans x3 y3,
    Nat.le_trans x4 y4, Nat.le_trans x5 y5⟩

lemma Counters.le_bump (c : Counters) (o : Outcome) : Counters.le c (c.bump o) := by
  cases o <;> unfold Counters.bump <;> exact ⟨by simp, by simp, by simp, by simp, by simp⟩

lemma step_nextId {e e' : Engine} (h : Step e e') : e.nextId ≤ e'.nextId := by
  cases h with
  | dispatch jid e e' hs =>
    obtain ⟨j, iid, rest, _, _, _, _, _, rfl⟩ := dispatchStep_eq hs
    exact Nat.le_of_eq (setJob_nextId _ _).symm
  | finishProbe jid iid e e' hs =>
    obtain ⟨j, _, _, _, rfl⟩ := finishStep_eq hs
    rw [setJob_nextId, commitResult_nextId]
  | complete jid e e' hs =>
    obtain ⟨j, _, _, _, _, _, rfl⟩ := completeStep_eq hs
    exact Nat.le_of_eq (setJob_nextId _ _).symm
  | cancelObserve jid e e' hs =>
    obtain ⟨j, _, _, _, _, rfl⟩ := cancelObserveStep_eq hs
    exact Nat.le_of_eq (setJob_nextId _ _).symm
  | apiCreate sc e =>
    unfold createJob
    split
    · exact Nat.le_refl _
    · split
      · exact Nat.le_refl _
      · split <;> exact Nat.le_succ _
  | apiCancel jid e =>
    unfold cancel
    split
    · exact Nat.le_refl _
    · split
      · exact Nat.le_refl _
      · exact Nat.le_of_eq (setJob_nextId _ _).symm
  | apiRevalidate iid e =>
    unfold revalidate
    split
    · exact Nat.le_refl _
    · exact Nat.le_of_eq (commitResult_nextId _ _ _).symm
  | apiDelete jid e =>
    unfold deleteJob
    split <;> exact Nat.le_refl _

lemma steps_nextId {e e' : Engine} (h : Steps e e') : e.nextId ≤ e'.nextId := by
  induction h with
  | refl => exact Nat.le_refl _
  | tail _ hbc ih => exact Nat.le_trans ih (step_nextId hbc)

lemma step_conc {e e' : Engine} (h : Step e e') : e'.conc = e.conc := by
  cases h with
  | dispatch jid e e' hs =>
    obtain ⟨j, iid, rest, _, _, _, _, _, rfl⟩ := dispatchStep_eq hs
    rfl
  | finishProbe jid iid e e' hs =>
    obtain ⟨j, _, _, _, rfl⟩ := finishStep_eq hs
    rw [setJob_conc, commitResult_conc]
  | complete jid e e' hs =>
    obtain ⟨j, _, _, _, _, _, rfl⟩ := completeStep_eq hs
    rfl
  | cancelObserve jid e e' hs =>
    obtain ⟨j, _, _, _, _, rfl⟩ := cancelObserveStep_eq hs
    rfl
  | apiCreate sc e =>
    unfold createJob
    split
    · rfl
    · split
      · rfl
      · split <;> rfl
  | apiCancel jid e =>
    unfold cancel
    split
    · rfl
    · split <;> rfl
  | apiRevalidate iid e =>
    unfold revalidate
    split
    · rfl
    · exact commitResult_conc _ _ _
  | apiDelete jid e =>
    unfold deleteJob
    split <;> rfl

lemma find_back_setJob {e : Engine} {nj : Job} {jid : Nat} {j' : Job}
    (hle : ∀ y : Job, e.findJob jid = some y → y.jobId = nj.jobId →
      Counters.le y.counters nj.counters)
    (h : (e.setJob nj).findJob jid = some j') :
    ∃ j, e.findJob jid = some j ∧ Counters.le j.counters j'.counters := by
  rw [findJob_setJob] at h
  cases hfe : e.findJob jid with
  | none => rw [hfe] at h; cases h
  | some j =>
    rw [hfe] at h
    simp only [Option.map_some'] at h
    refine ⟨j, rfl, ?_⟩
    by_cases hc : j.jobId = nj.jobId
    · rw [if_pos hc] at h
      rw [← Option.some.inj h]
      exact hle j hfe hc
    · rw [if_neg hc] at h
      rw [← Option.some.inj h]
      exact Counters.le_refl _

lemma find_back_step {e e' : Engine} {jid : Nat} {j' : Job} (hInv : e.Inv)
    (hstep : Step e e') (h : e'.findJob jid = some j') :
    (∃ j, e.findJob jid = some j ∧ Counters.le j.counters j'.counters) ∨ e.nextId ≤ jid := by
  cases hstep with
  | dispatch jid0 e e' hs =>
    obtain ⟨j0, iid, rest, hf0, hq, hst, hcf, hlt, rfl⟩ := dispatchStep_eq hs
    left
    refine find_back_setJob ?_ h
    intro y hy hyid
    have hj0id := (findJob_mem hf0).2
    have hyid' := (findJob_mem hy).2
    have : jid = jid0 := by dsimp only at hyid; omega
    subst this
    rw [hy] at hf0
    rw [Option.some.inj hf0]
    exact Counters.le_refl _
  | finishProbe jid0 iid e e' hs =>
    obtain ⟨j0, hf0, hst, hmem, rfl⟩ := finishStep_eq hs
    left
    have h' : ((commitResult e iid (probeItem e iid).outcome).setJob _).findJob jid = some j' := h
    rw [findJob_setJob, commitResult_findJob] at h'
    cases hfe : e.findJob jid with
    | none => rw [hfe] at h'; cases h'
    | some j =>
      rw [hfe] at h'
      simp only [Option.map_some'] at h'
      refine ⟨j, rfl, ?_⟩
      by_cases hc : j.jobId = j0.jobId
      · rw [if_pos hc] at h'
        rw [← Option.some.inj h']
        have hj0id := (findJob_mem hf0).2
        have hjid := (findJob_mem hfe).2
        have : jid = jid0 := by omega
        subst this
        rw [hfe] at hf0
        rw [Option.some.inj hf0]
        exact Counters.le_bump _ _
      · rw [if_neg hc] at h'
        rw [← Option.some.inj h']
        exact Counters.le_refl _
  | complete jid0 e e' hs =>
    obtain ⟨j0, hf0, hst, hcf, hq, hifl, rfl⟩ := completeStep_eq hs
    left
    refine find_back_setJob ?_ h
    intro y hy hyid
    have hj0id := (findJob_mem hf0).2
    have hyid' := (findJob_mem hy).2
    have : jid = jid0 := by dsimp only at hyid; omega
    subst this
    rw [hy] at hf0
    rw [Option.some.inj hf0]
    exact Counters.le_refl _
  | cancelObserve jid0 e e' hs =>
    obtain ⟨j0, hf0, hst, hcf, hifl, rfl⟩ := cancelObserveStep_eq hs
    left
    refine find_back_setJob ?_ h
    intro y hy hyid
    have hj0id := (findJob_mem hf0).2
    have hyid' := (findJob_mem hy).2
    have : jid = jid0 := by dsimp only at hyid; omega
    subst this
    rw [hy] at hf0
    rw [Option.some.inj hf0]
    exact Counters.le_refl _
  | apiCreate sc e =>
    by_cases hnew : e.nextId ≤ jid
    · right; exact hnew
    · left
      refine ⟨j', ?_, Counters.le_refl _⟩
      revert h
      unfold createJob
      split
      · exact fun h => h
      · split
        · exact fun h => h
        · split <;>
          · intro h
            unfold Engine.findJob at h ⊢
            dsimp only at h
            rw [List.find?_cons_of_neg _ (by simp; omega)] at h
            exact h
  | apiCancel jid0 e =>
    left
    revert h
    unfold cancel
    split
    · exact fun h => ⟨j', h, Counters.le_refl _⟩
    · rename_i j0 hf0
      split
      · exact fun h => ⟨j', h, Counters.le_refl _⟩
      · intro h
        refine find_back_setJob ?_ h
        intro y hy hyid
        have hj0id := (findJob_mem hf0).2
        have hyid' := (findJob_mem hy).2
        have : jid = jid0 := by dsimp only at hyid; omega
        subst this
        rw [hy] at hf0
        rw [Option.some.inj hf0]
        exact Counters.le_refl _
  | apiRevalidate iid e =>
    left
    revert h
    unfold revalidate
    split
    · exact fun h => ⟨j', h, Counters.le_refl _⟩
    · intro h
      rw [commitResult_findJob] at h
      exact ⟨j', h, Counters.le_refl _⟩
  | apiDelete jid0 e =>
    left
    revert h
    unfold deleteJob
    split
    · exact fun h => ⟨j', h, Counters.le_refl _⟩
    · intro h
      have hmem : j' ∈ e.jobs := by
        have := List.mem_of_find?_eq_some h
        exact List.mem_of_mem_filter this
      have hid : j'.jobId = jid := by simpa using List.find?_some h
      exact ⟨j', findJob_eq_of_mem hInv.2 hmem hid, Counters.le_refl _⟩

lemma steps_counters_mono {e e' : Engine} {jid : Nat} {j j' : Job} (hInv : e.Inv)
    (hsteps : Steps e e') (hf : e.findJob jid = some j) (hf' : e'.findJob jid = some j') :
    Counters.le j.counters j'.counters := by
  induction hsteps generalizing j' with
  | refl =>
    rw [hf] at hf'
    rw [← Option.some.inj hf']
    exact Counters.le_refl _
  | tail hab hbc ih =>
    rcases find_back_step (hInv.steps hab) hbc hf' with ⟨jb, hfb, hle⟩ | hge
    · exact Counters.le_trans (ih hfb) hle
    · exfalso
      have hlt : jid < e.nextId := by
        have := (hInv.1 j (findJob_mem hf).1).2
        have := (findJob_mem hf).2
        omega
      have := steps_nextId hab
      omega

lemma step_find_none {e e' : Engine} {jid : Nat} (hstep : Step e e')
    (h : e.findJob jid = none) (hlt : jid < e.nextId) : e'.findJob jid = none := by
  cases hstep with
  | dispatch jid0 e e' hs =>
    obtain ⟨j0, iid, rest, _, _, _, _, _, rfl⟩ := dispatchStep_eq hs
    rw [findJob_setJob, h]
    rfl
  | finishProbe jid0 iid e e' hs =>
    obtain ⟨j0, _, _, _, rfl⟩ := finishStep_eq hs
    rw [findJob_setJob, commitResult_findJob, h]
    rfl
  | complete jid0 e e' hs =>
    obtain ⟨j0, _, _, _, _, _, rfl⟩ := completeStep_eq hs
    rw [findJob_setJob, h]
    rfl
  | cancelObserve jid0 e e' hs =>
    obtain ⟨j0, _, _, _, _, rfl⟩ := cancelObserveStep_eq hs
    rw [findJob_setJob, h]
    rfl
  | apiCreate sc e =>
    unfold createJob
    split
    · exact h
    · split
      · exact h
      · split <;>
        · unfold Engine.findJob at h ⊢
          dsimp only
          rw [List.find?_cons_of_neg _ (by simp; omega)]
          exact h
  | apiCancel jid0 e =>
    unfold cancel
    split
    · exact h
    · split
      · exact h
      · rw [findJob_setJob, h]
        rfl
  | apiRevalidate iid e =>
    unfold revalidate
    split
    · exact h
    · rw [commitResult_findJob]
      exact h
  | apiDelete jid0 e =>
    unfold deleteJob
    split
    · exact h
    · unfold Engine.findJob at h ⊢
      dsimp only
      rw [List.find?_eq_none] at h ⊢
      intro x hx
      exact h x (List.mem_of_mem_filter hx)

lemma terminal_not_running {j : Job} (h : j.state.isTerminal = true) :
    ¬ j.state = JobState.running := by
  intro hr
  rw [hr] at h
  cases h

lemma step_terminal_frame {e e' : Engine} {jid : Nat} {j : Job} (hInv : e.Inv)
    (hstep : Step e e') (hf : e.findJob jid = some j) (hterm : j.state.isTerminal = true) :
    e'.findJob jid = none ∨ e'.findJob jid = some j := by
  have hsame : ∀ (nj j0 : Job) (jid0 : Nat), e.findJob jid0 = some j0 → nj.jobId = j0.jobId →
      ¬ j0.state.isTerminal = true →
      (e.setJob nj).findJob jid = some j := by
    intro nj j0 jid0 hf0 hnjid hnt
    rw [findJob_setJob, hf]
    simp only [Option.map_some']
    have hne : ¬ j.jobId = nj.jobId := by
      intro heq
      have h1 := (findJob_mem hf).2
      have h2 := (findJob_mem hf0).2
      have : jid = jid0 := by omega
      subst this
      rw [hf] at hf0
      exact hnt ((Option.some.inj hf0) ▸ hterm)
    rw [if_neg hne]
  cases hstep with
  | dispatch jid0 e e' hs =>
    obtain ⟨j0, iid, rest, hf0, hq, hst, hcf, hlt, rfl⟩ := dispatchStep_eq hs
    right
    exact hsame _ j0 jid0 hf0 rfl (by rw [hst]; intro hx; cases hx)
  | finishProbe jid0 iid e e' hs =>
    obtain ⟨j0, hf0, hst, hmem, rfl⟩ := finishStep_eq hs
    right
    have hf' : (commitResult e iid (probeItem e iid).outcome).findJob jid = some j := by
      rw [commitResult_findJob]; exact hf
    rw [findJob_setJob, commitResult_findJob, hf]
    simp only [Option.map_some']
    have hne : ¬ j.jobId = j0.jobId := by
      intro heq
      have h1 := (findJob_mem hf).2
      have h2 := (findJob_mem hf0).2
      have : jid = jid0 := by omega
      subst this
      rw [hf] at hf0
      have := Option.some.inj hf0
      subst this
      exact terminal_not_running hterm hst
    rw [if_neg hne]
  | complete jid0 e e' hs =>
    obtain ⟨j0, hf0, hst, hcf, hq, hifl, rfl⟩ := completeStep_eq hs
    right
    exact hsame _ j0 jid0 hf0 rfl (by rw [hst]; intro hx; cases hx)
  | cancelObserve jid0 e e' hs =>
    obtain ⟨j0, hf0, hst, hcf, hifl, rfl⟩ := cancelObserveStep_eq hs
    right
    exact hsame _ j0 jid0 hf0 rfl (by rw [hst]; intro hx; cases hx)
  | apiCreate sc e =>
    right
    have hlt : jid < e.nextId := by
      have := (hInv.1 j (findJob_mem hf).1).2
      have := (findJob_mem hf).2
      omega
    unfold createJob
    split
    · exact hf
    · split
      · exact hf
      · split <;>
        · unfold Engine.findJob at hf ⊢
          dsimp only
          rw [List.find?_cons_of_neg _ (by simp; omega)]
          exact hf
  | apiCancel jid0 e =>
    right
    unfold cancel
    split
    · exact hf
    · rename_i j0 hf0
      split
      · exact hf
      · rename_i hnt
        exact hsame _ j0 jid0 hf0 rfl hnt
  | apiRevalidate iid e =>
    right
    unfold revalidate
    split
    · exact hf
    · rw [commitResult_findJob]
      exact hf
  | apiDelete jid0 e =>
    unfold deleteJob
    split
    · right; exact hf
    · cases hfe : ({ e with jobs := e.jobs.filter (fun x => x.jobId ≠ jid0) } : Engine).findJob jid with
      | none => left; rfl
      | some j'' =>
        right
        have hmem : j'' ∈ e.jobs := by
          have hmf := List.mem_of_find?_eq_some hfe
          exact List.mem_of_mem_filter hmf
        have hid : j''.jobId = jid := by simpa using List.find?_some hfe
        have heq2 := findJob_eq_of_mem hInv.2 hmem hid
        rw [hf] at heq2
        exact congrArg some (Option.some.inj heq2).symm

lemma steps_terminal_frame {e e' : Engine} {jid : Nat} {j : Job} (hInv : e.Inv)
    (hsteps : Steps e e') (hf : e.findJob jid = some j) (hterm : j.state.isTerminal = true) :
    e'.findJob jid = none ∨ e'.findJob jid = some j := by
  have hlt : jid < e.nextId := by
    have := (hInv.1 j (findJob_mem hf).1).2
    have := (findJob_mem hf).2
    omega
  induction hsteps with
  | refl => right; exact hf
  | tail hab hbc ih =>
    rcases ih with hnone | hsome
    · left
      refine step_find_none hbc hnone ?_
      have := steps_nextId hab
      omega
    · exact step_terminal_frame (hInv.steps hab) hbc hsome hterm

lemma stepJobOnce_none {e : Engine} {jid : Nat} {j : Job} (hf : e.findJob jid = some j)
    (hnr : ¬ j.state = JobState.running) : stepJobOnce e jid = none := by
  unfold stepJobOnce
  split
  · rfl
  · rename_i j2 hf2
    have hj : j2 = j := by rw [hf] at hf2; exact (Option.some.inj hf2).symm
    subst hj
    rw [if_neg hnr]

lemma runToTerminal_stuck {e : Engine} {jid : Nat} {j : Job} (hf : e.findJob jid = some j)
    (hnr : ¬ j.state = JobState.running) : ∀ fuel, runToTerminal e jid fuel = e := by
  intro fuel
  cases fuel with
  | zero => rfl
  | succ n =>
    unfold runToTerminal
    rw [stepJobOnce_none hf hnr]

lemma stepJobOnce_step {e e' : Engine} {jid : Nat} (h : stepJobOnce e jid = some e') :
    Step e e' := by
  unfold stepJobOnce at h
  split at h
  · cases h
  · rename_i j hf
    split at h
    · split at h
      · split at h
        · exact Step.cancelObserve jid e e' h
        · rename_i iid rest hifl
          exact Step.finishProbe jid iid e e' h
      · split at h
        · rename_i iid rest hifl
          exact Step.finishProbe jid iid e e' h
        · split at h
          · exact Step.complete jid e e' h
          · exact Step.dispatch jid e e' h
    · cases h

lemma cancelObserveStep_some {e : Engine} {jid : Nat} {j : Job} (hf : e.findJob jid = some j)
    (hs : j.state = JobState.running) (hcf : j.cancelFlag = true) (hifl : j.inFlight = []) :
    cancelObserveStep e jid
      = some (e.setJob { j with state := .cancelled, finishedAt := some e.now }) := by
  unfold cancelObserveStep
  split
  · rename_i hnone
    simp [hf] at hnone
  · rename_i j2 hf2
    have hj : j2 = j := by rw [hf] at hf2; exact (Option.some.inj hf2).symm
    subst hj
    rw [if_pos ⟨hs, hcf, hifl⟩]

lemma completeStep_some {e : Engine} {jid : Nat} {j : Job} (hf : e.findJob jid = some j)
    (hs : j.state = JobState.running) (hcf : j.cancelFlag = false) (hq : j.queue = [])
    (hifl : j.inFlight = []) :
    completeStep e jid
      = some (e.setJob { j with state := .completed, finishedAt := some e.now }) := by
  unfold completeStep
  split
  · rename_i hnone
    simp [hf] at hnone
  · rename_i j2 hf2
    have hj : j2 = j := by rw [hf] at hf2; exact (Option.some.inj hf2).symm
    subst hj
    rw [if_pos ⟨hs, hcf, hq, hifl⟩]

lemma finishStep_some {e : Engine} {jid iid : Nat} {j : Job} {t : List Nat}
    (hf : e.findJob jid = some j) (hs : j.state = JobState.running)
    (hifl : j.inFlight = iid :: t) :
    finishStep e jid iid = some ((commitResult e iid (probeItem e iid).outcome).setJob
      { j with inFlight := j.inFlight.erase iid,
               counters := j.counters.bump (probeItem e iid).outcome }) := by
  unfold finishStep
  split
  · rename_i hnone
    simp [hf] at hnone
  · rename_i j2 hf2
    have hj : j2 = j := by rw [hf] at hf2; exact (Option.some.inj hf2).symm
    subst hj
    rw [if_pos ⟨hs, by rw [hifl]; exact List.mem_cons_self _ _⟩]

lemma dispatchStep_some {e : Engine} {jid : Nat} {j : Job} {q : Nat} {rest : List Nat}
    (hf : e.findJob jid = some j) (hq : j.queue = q :: rest)
    (hs : j.state = JobState.running) (hcf : j.cancelFlag = false)
    (hlt : j.inFlight.length < e.conc) :
    dispatchStep e jid = some (e.setJob { j with queue := rest, inFlight := q :: j.inFlight }) := by
  unfold dispatchStep
  split
  · rename_i hnone
    simp [hf] at hnone
  · rename_i j2 hf2
    have hj : j2 = j := by rw [hf] at hf2; exact (Option.some.inj hf2).symm
    subst hj
    split
    · rename_i hnil
      rw [hq] at hnil
      cases hnil
    · rename_i q2 rest2 hq2
      rw [hq] at hq2
      injection hq2 with h1 h2
      subst h1
      subst h2
      rw [if_pos ⟨hs, hcf, hlt⟩]

lemma runToTerminal_succ (e : Engine) (jid n : Nat) :
    runToTerminal e jid (n + 1)
      = match stepJobOnce e jid with
        | none => e
        | some e2 => runToTerminal e2 jid n := rfl

lemma runToTerminal_spec : ∀ (fuel : Nat) (e : Engine) (jid : Nat) (j : Job),
    e.Inv → 0 < e.conc → e.findJob jid = some j → j.state = JobState.running →
    j.fuelOf ≤ fuel →
    Steps e (runToTerminal e jid fuel) ∧
    ∃ j', (runToTerminal e jid fuel).findJob jid = some j' ∧
      j'.state = (if j.cancelFlag then JobState.cancelled else JobState.completed) := by
  intro fuel
  induction fuel with
  | zero =>
    intro e jid j _ _ _ _ hle
    exact absurd hle (by unfold Job.fuelOf; omega)
  | succ n ih =>
    intro e jid j hInv hconc hf hrun hle
    cases hcf : j.cancelFlag with
    | true =>
      cases hifl : j.inFlight with
      | nil =>
        have hsome := cancelObserveStep_some hf hrun hcf hifl
        have honce : stepJobOnce e jid = cancelObserveStep e jid := by
          unfold stepJobOnce
          split
          · rename_i hnone
            simp [hf] at hnone
          · rename_i j2 hf2
            have hj : j2 = j := by rw [hf] at hf2; exact (Option.some.inj hf2).symm
            subst hj
            rw [if_pos hrun, hcf, hifl]
            simp
        have honce2 : stepJobOnce e jid
            = some (e.setJob { j with state := .cancelled, finishedAt := some e.now }) := by
          rw [honce, hsome]
        have hrtt : runToTerminal e jid (n + 1)
            = runToTerminal (e.setJob { j with state := .cancelled, finishedAt := some e.now }) jid n := by
          rw [runToTerminal_succ, honce2]
        have hf2 : (e.setJob { j with state := .cancelled, finishedAt := some e.now }).findJob jid
            = some { j with state := .cancelled, finishedAt := some e.now } := by
          rw [findJob_setJob, hf]
          simp
        have hstuck := runToTerminal_stuck hf2 (by intro hx; cases hx) n
        rw [hrtt, hstuck]
        refine ⟨Relation.ReflTransGen.single (stepJobOnce_step honce2), ?_⟩
        exact ⟨_, hf2, by simp⟩
      | cons iid t =>
        have hsome := finishStep_some hf hrun hifl
        have honce : stepJobOnce e jid = finishStep e jid iid := by
          unfold stepJobOnce
          split
          · rename_i hnone
            simp [hf] at hnone
          · rename_i j2 hf2
            have hj : j2 = j := by rw [hf] at hf2; exact (Option.some.inj hf2).symm
            subst hj
            rw [if_pos hrun, hcf, hifl]
            simp
        have honce2 : stepJobOnce e jid = some ((commitResult e iid (probeItem e iid).outcome).setJob { j with inFlight := j.inFlight.erase iid, counters := j.counters.bump (probeItem e iid).outcome }) := by
          rw [honce, hsome]
        have hrtt : runToTerminal e jid (n + 1) = runToTerminal ((commitResult e iid (probeItem e iid).outcome).setJob { j with inFlight := j.inFlight.erase iid, counters := j.counters.bump (probeItem e iid).outcome }) jid n := by
          rw [runToTerminal_succ, honce2]
        have hstep := stepJobOnce_step honce2
        have hInv2 := hInv.step hstep
        have hconc2 : 0 < ((commitResult e iid (probeItem e iid).outcome).setJob { j with inFlight := j.inFlight.erase iid, counters := j.counters.bump (probeItem e iid).outcome }).conc := by
          rw [step_conc hstep]
          exact hconc
        have hfj2 : ((commitResult e iid (probeItem e iid).outcome).setJob { j with inFlight := j.inFlight.erase iid, counters := j.counters.bump (probeItem e iid).outcome }).findJob jid = some { j with inFlight := j.inFlight.erase iid, counters := j.counters.bump (probeItem e iid).outcome } := by
          rw [findJob_setJob, commitResult_findJob, hf]
          simp
        have herase : j.inFlight.erase iid = t := by
          rw [hifl]
          exact List.erase_cons_head iid t
        have hfuel2 : Job.fuelOf { j with inFlight := j.inFlight.erase iid, counters := j.counters.bump (probeItem e iid).outcome } ≤ n := by
          unfold Job.fuelOf at hle ⊢
          dsimp only
          rw [herase]
          rw [hifl] at hle
          simp at hle ⊢
          omega
        obtain ⟨hsteps2, j', hfj', hst'⟩ := ih _ jid _ hInv2 hconc2 hfj2 hrun hfuel2
        rw [hrtt]
        refine ⟨Relation.ReflTransGen.head hstep hsteps2, j', hfj', ?_⟩
        rw [hst']
        have hcf2 : ({ j with inFlight := j.inFlight.erase iid, counters := j.counters.bump (probeItem e iid).outcome } : Job).cancelFlag = true := hcf
        rw [hcf2]
    | false =>
      cases hifl : j.inFlight with
      | cons iid t =>
        have hsome := finishStep_some hf hrun hifl
        have honce : stepJobOnce e jid = finishStep e jid iid := by
          unfold stepJobOnce
          split
          · rename_i hnone
            simp [hf] at hnone
          · rename_i j2 hf2
            have hj : j2 = j := by rw [hf] at hf2; exact (Option.some.inj hf2).symm
            subst hj
            rw [if_pos hrun, hcf, hifl]
            simp
        have honce2 : stepJobOnce e jid = some ((commitResult e iid (probeItem e iid).outcome).setJob { j with inFlight := j.inFlight.erase iid, counters := j.counters.bump (probeItem e iid).outcome }) := by
          rw [honce, hsome]
        have hrtt : runToTerminal e jid (n + 1) = runToTerminal ((commitResult e iid (probeItem e iid).outcome).setJob { j with inFlight := j.inFlight.erase iid, counters := j.counters.bump (probeItem e iid).outcome }) jid n := by
          rw [runToTerminal_succ, honce2]
        have hstep := stepJobOnce_step honce2
        have hInv2 := hInv.step hstep
        have hconc2 : 0 < ((commitResult e iid (probeItem e iid).outcome).setJob { j with inFlight := j.inFlight.erase iid, counters := j.counters.bump (probeItem e iid).outcome }).conc := by
          rw [step_conc hstep]
          exact hconc
        have hfj2 : ((commitResult e iid (probeItem e iid).outcome).setJob { j with inFlight := j.inFlight.erase iid, counters := j.counters.bump (probeItem e iid).outcome }).findJob jid = some { j with inFlight := j.inFlight.erase iid, counters := j.counters.bump (probeItem e iid).outcome } := by
          rw [findJob_setJob, commitResult_findJob, hf]
          simp
        have herase : j.inFlight.erase iid = t := by
          rw [hifl]
          exact List.erase_cons_head iid t
        have hfuel2 : Job.fuelOf { j with inFlight := j.inFlight.erase iid, counters := j.counters.bump (probeItem e iid).outcome } ≤ n := by
          unfold Job.fuelOf at hle ⊢
          dsimp only
          rw [herase]
          rw [hifl] at hle
          simp at hle ⊢
          omega
        obtain ⟨hsteps2, j', hfj', hst'⟩ := ih _ jid _ hInv2 hconc2 hfj2 hrun hfuel2
        rw [hrtt]
        refine ⟨Relation.ReflTransGen.head hstep hsteps2, j', hfj', ?_⟩
        rw [hst']
        have hcf2 : ({ j with inFlight := j.inFlight.erase iid, counters := j.counters.bump (probeItem e iid).outcome } : Job).cancelFlag = false := hcf
        rw [hcf2]
      | nil =>
        cases hq : j.queue with
        | nil =>
          have hsome := completeStep_some hf hrun hcf hq hifl
          have honce : stepJobOnce e jid = completeStep e jid := by
            unfold stepJobOnce
            split
            · rename_i hnone
              simp [hf] at hnone
            · rename_i j2 hf2
              have hj : j2 = j := by rw [hf] at hf2; exact (Option.some.inj hf2).symm
              subst hj
              rw [if_pos hrun, hcf, hifl, hq]
              simp
          have honce2 : stepJobOnce e jid
              = some (e.setJob { j with state := .completed, finishedAt := some e.now }) := by
            rw [honce, hsome]
          have hrtt : runToTerminal e jid (n + 1)
              = runToTerminal (e.setJob { j with state := .completed, finishedAt := some e.now }) jid n := by
            rw [runToTerminal_succ, honce2]
          have hf2 : (e.setJob { j with state := .completed, finishedAt := some e.now }).findJob jid
              = some { j with state := .completed, finishedAt := some e.now } := by
            rw [findJob_setJob, hf]
            simp
          have hstuck := runToTerminal_stuck hf2 (by intro hx; cases hx) n
          rw [hrtt, hstuck]
          refine ⟨Relation.ReflTransGen.single (stepJobOnce_step honce2), ?_⟩
          exact ⟨_, hf2, by simp⟩
        | cons q rest =>
          have hlt0 : j.inFlight.length < e.conc := by rw [hifl]; simpa using hconc
          have hsome := dispatchStep_some hf hq hrun hcf hlt0
          have honce : stepJobOnce e jid = dispatchStep e jid := by
            unfold stepJobOnce
            split
            · rename_i hnone
              simp [hf] at hnone
            · rename_i j2 hf2
              have hj : j2 = j := by rw [hf] at hf2; exact (Option.some.inj hf2).symm
              subst hj
              rw [if_pos hrun, hcf, hifl, hq]
              simp
          have honce2 : stepJobOnce e jid
              = some (e.setJob { j with queue := rest, inFlight := q :: j.inFlight }) := by
            rw [honce, hsome]
          have hrtt : runToTerminal e jid (n + 1)
              = runToTerminal (e.setJob { j with queue := rest, inFlight := q :: j.inFlight }) jid n := by
            rw [runToTerminal_succ, honce2]
          have hstep := stepJobOnce_step honce2
          have hInv2 := hInv.step hstep
          have hconc2 : 0 < (e.setJob { j with queue := rest, inFlight := q :: j.inFlight }).conc := by
            rw [step_conc hstep]
            exact hconc
          have hfj2 : (e.setJob { j with queue := rest, inFlight := q :: j.inFlight }).findJob jid
              = some { j with queue := rest, inFlight := q :: j.inFlight } := by
            rw [findJob_setJob, hf]
            simp
          have hfuel2 : Job.fuelOf { j with queue := rest, inFlight := q :: j.inFlight } ≤ n := by
            unfold Job.fuelOf at hle ⊢
            dsimp only
            rw [hifl, hq] at hle
            rw [hifl]
            simp at hle ⊢
            omega
          obtain ⟨hsteps2, j', hfj', hst'⟩ := ih _ jid _ hInv2 hconc2 hfj2 hrun hfuel2
          rw [hrtt]
          refine ⟨Relation.ReflTransGen.head hstep hsteps2, j', hfj', ?_⟩
          rw [hst']
          have hcf2 : ({ j with queue := rest, inFlight := q :: j.inFlight } : Job).cancelFlag = false := hcf
          rw [hcf2]

end Validation

namespace MovieFrontend

/-- C9 counterexample: a movie whose poster already equals the placeholder URL
and whose `valid_poster` is absent is returned unchanged by `processMovies`,
although its poster is truthy and `valid_poster` is not strictly `true` — so
"the i-th output equals the i-th input exactly when poster is truthy and
valid_poster === true" fails in the only-if direction. -/
theorem processMovies_iff_counterexample :
    processMovies [badMovie] = [badMovie] ∧
    ¬(posterTruthy badMovie.poster = true ∧ badMovie.valid_poster = some true) := by
  constructor
  · rfl
  · intro hc
    cases hc.2

/-- C9 (amended): `processMovies` preserves length; a movie with a truthy
poster and `valid_poster === true` is returned unchanged; every other movie is
returned with only its poster replaced by the placeholder URL and all other
fields unchanged (which coincides with the input when the poster already was
the placeholder). -/
theorem processMovies_spec (movies : List Movie) (i : Nat) (m : Movie)
    (h : movies[i]? = some m) :
    (processMovies movies).length = movies.length ∧
    (posterTruthy m.poster = true ∧ m.valid_poster = some true →
      (processMovies movies)[i]? = some m) ∧
    (¬(posterTruthy m.poster = true ∧ m.valid_poster = some true) →
      ∃ mo, (processMovies movies)[i]? = some mo ∧
        mo.poster = some defaultImg ∧ mo.mid = m.mid ∧ mo.title = m.title ∧
        mo.year = m.year ∧ mo.genres = m.genres ∧ mo.valid_poster = m.valid_poster) := by
  refine ⟨by simp [processMovies], ?_, ?_⟩
  · intro hc
    unfold processMovies
    rw [List.getElem?_map, h]
    simp [hc.1, hc.2]
  · intro hn
    have hcond : ¬ (posterTruthy m.poster && m.valid_poster == some true) = true := by
      simp only [Bool.and_eq_true, beq_iff_eq]
      exact hn
    unfold processMovies
    rw [List.getElem?_map, h]
    simp only [Option.map_some']
    rw [if_neg hcond]
    exact ⟨_, rfl, rfl, rfl, rfl, rfl, rfl, rfl⟩

/-- C9 witness: the amended theorem evaluated on a concrete two-movie list. -/
theorem processMovies_spec_witness :
    ([goodMovie, badMovie][0]? = some goodMovie) ∧
    (processMovies [goodMovie, badMovie]).length = [goodMovie, badMovie].length ∧
    (posterTruthy goodMovie.poster = true ∧ goodMovie.valid_poster = some true →
      (processMovies [goodMovie, badMovie])[0]? = some goodMovie) := by
  refine ⟨rfl, ?_, ?_⟩
  · exact (processMovies_spec [goodMovie, badMovie] 0 goodMovie rfl).1
  · exact (processMovies_spec [goodMovie, badMovie] 0 goodMovie rfl).2.1

/-- C10: both movie-list requests always carry `include_invalid_posters` in
the query string, with value `false` whenever the caller did not set it. -/
theorem movie_query_default_excludes_invalid (p : FetchMoviesParams) (q : GenreParams) :
    (fetchMoviesQuery p).lookup "include_invalid_posters"
      = some (jsBoolString (p.include_invalid_posters.getD false)) ∧
    (p.include_invalid_posters = none →
      (fetchMoviesQuery p).lookup "include_invalid_posters" = some "false") ∧
    (genreQuery q).lookup "include_invalid_posters"
      = some (jsBoolString (q.include_invalid_posters.getD false)) ∧
    (q.include_invalid_posters = none →
      (genreQuery q).lookup "include_invalid_posters" = some "false") := by
  refine ⟨?_, ?_, ?_, ?_⟩
  · simp [fetchMoviesQuery, List.lookup]
  · intro h
    simp [fetchMoviesQuery, List.lookup, h, jsBoolString]
  · simp [genreQuery, List.lookup]
  · intro h
    simp [genreQuery, List.lookup, h, jsBoolString]

/-- C10 witness: with no caller-supplied value, both queries carry
`include_invalid_posters=false`. -/
theorem movie_query_default_witness :
    (({} : FetchMoviesParams).include_invalid_posters = none) ∧
    (fetchMoviesQuery {}).lookup "include_invalid_posters" = some "false" ∧
    (genreQuery {}).lookup "include_invalid_posters" = some "false" := by
  refine ⟨rfl, ?_, ?_⟩
  · exact (movie_query_default_excludes_invalid {} {}).2.1 rfl
  · exact (movie_query_default_excludes_invalid {} {}).2.2.2 rfl

end MovieFrontend

namespace Validation

/-- C3: `Probe.check` classification — a malformed URL short-circuits to
invalid/malformed with no network call; otherwise at most one retry happens,
exactly when the first attempt is error-class, never on an invalid-class
attempt; timeout and connection failure classify as error, HTTP errors and a
non-image content type as invalid. -/
theorem probe_check_classification (net : Nat → NetResponse) (url : String) (code : Nat)
    (ct : String) :
    (malformedUrl url = true →
      probeCheck net url = { outcome := .invalid, reason := "malformed", networkCalls := 0 }) ∧
    (malformedUrl url = false →
      (probeCheck net url).networkCalls ≤ 2 ∧
      ((probeCheck net url).networkCalls = 2 ↔ (classify (net 0)).1 = .error) ∧
      ((classify (net 0)).1 ≠ .error →
        (probeCheck net url).networkCalls = 1 ∧
        (probeCheck net url).outcome = (classify (net 0)).1) ∧
      ((classify (net 0)).1 = .error →
        (probeCheck net url).outcome = (classify (net 1)).1)) ∧
    (classify .timeout).1 = .error ∧
    (classify .connFail).1 = .error ∧
    (classify (.httpError code)).1 = .invalid ∧
    (strStarts "image/" ct = false → (classify (.ok ct)).1 = .invalid) := by
  refine ⟨?_, ?_, rfl, rfl, rfl, ?_⟩
  · intro hm
    unfold probeCheck
    rw [if_pos hm]
  · intro hm
    unfold probeCheck
    rw [if_neg (by simp [hm])]
    by_cases he : (classify (net 0)).1 = Outcome.error
    · rw [if_pos he]
      refine ⟨by simp, by simp [he], ?_, fun _ => rfl⟩
      intro hne
      exact absurd he hne
    · rw [if_neg he]
      exact ⟨by simp, by simp [he], fun _ => ⟨rfl, rfl⟩, fun h => absurd h he⟩
  · intro hs
    show (if strStarts "image/" ct = true then (Outcome.valid, "ok")
      else (Outcome.invalid, "wrong-content-type")).1 = Outcome.invalid
    rw [if_neg (by simp [hs])]

/-- C3 witness: a well-formed URL against an always-timing-out network makes
two calls and ends error-class; the empty URL makes none. -/
theorem probe_check_witness :
    malformedUrl "" = true ∧
    probeCheck exNet "" = { outcome := .invalid, reason := "malformed", networkCalls := 0 } ∧
    malformedUrl "http://img.example/p.jpg" = false ∧
    (probeCheck exNet "http://img.example/p.jpg").networkCalls ≤ 2 ∧
    (strStarts "image/" "text/html" = false ∧ (classify (.ok "text/html")).1 = .invalid) := by
  refine ⟨by decide, ?_, by decide, ?_, by decide, ?_⟩
  · exact (probe_check_classification exNet "" 404 "text/html").1 (by decide)
  · exact ((probe_check_classification exNet "http://img.example/p.jpg" 404 "text/html").2.1
      (by decide)).1
  · exact (probe_check_classification exNet "" 404 "text/html").2.2.2.2.2 (by decide)

end Validation

namespace Validation

/-- C1: at every observable status snapshot of a reachable engine state the
counter equation `processed = valid + invalid + errored` holds with
`processed ≤ total`, and between reachable snapshots of a job that is Running
at both, every counter is monotonically non-decreasing. -/
theorem counters_snapshot_invariant (e0 e1 e2 : Engine) (hInv : e0.Inv)
    (h01 : Steps e0 e1) (h12 : Steps e1 e2) :
    (∀ jid st c, getStatus e1 jid = Except.ok (st, c) →
      c.processed = c.valid + c.invalid + c.errored ∧ c.processed ≤ c.total) ∧
    (∀ jid j1 j2, e1.findJob jid = some j1 → e2.findJob jid = some j2 →
      j1.state = JobState.running → j2.state = JobState.running →
      Counters.le j1.counters j2.counters) := by
  have hInv1 := hInv.steps h01
  constructor
  · intro jid st c hok
    unfold getStatus at hok
    split at hok
    · cases hok
    · rename_i j hf
      have hpair := Except.ok.inj hok
      injection hpair with h1 h2
      obtain ⟨hcoh, _⟩ := hInv1.1 j (findJob_mem hf).1
      rw [← h2]
      refine ⟨hcoh.1, ?_⟩
      have := hcoh.2.1
      omega
  · intro jid j1 j2 hf1 hf2 _ _
    exact steps_counters_mono hInv1 h12 hf1 hf2

/-- C1 witness: the invariant instantiated on the concrete engine, with the
trivial reachability chain. -/
theorem counters_snapshot_invariant_witness :
    Engine.Inv exEngine ∧ Steps exEngine exEngine ∧
    ((∀ jid st c, getStatus exEngine jid = Except.ok (st, c) →
        c.processed = c.valid + c.invalid + c.errored ∧ c.processed ≤ c.total) ∧
      (∀ jid j1 j2, exEngine.findJob jid = some j1 → exEngine.findJob jid = some j2 →
        j1.state = JobState.running → j2.state = JobState.running →
        Counters.le j1.counters j2.counters)) :=
  ⟨by decide, Relation.ReflTransGen.refl,
    counters_snapshot_invariant exEngine exEngine exEngine (by decide)
      Relation.ReflTransGen.refl Relation.ReflTransGen.refl⟩

/-- C8: in every reachable engine state, no job ever has more than
`conc` (= N) probes simultaneously in flight. -/
theorem bounded_inflight (e0 e : Engine) (hInv : e0.Inv) (hs : Steps e0 e) :
    ∀ j ∈ e.jobs, j.inFlight.length ≤ e.conc :=
  fun j hj => ((hInv.steps hs).1 j hj).1.2.2.1

/-- C8 witness: the bound instantiated on the concrete engine. -/
theorem bounded_inflight_witness :
    Engine.Inv exEngine ∧ Steps exEngine exEngine ∧
    (∀ j ∈ exEngine.jobs, j.inFlight.length ≤ exEngine.conc) :=
  ⟨by decide, Relation.ReflTransGen.refl,
    bounded_inflight exEngine exEngine (by decide) Relation.ReflTransGen.refl⟩

end Validation

namespace Validation

/-- C4: a Running job can always be driven to a terminal state; a job that is
terminal stays in exactly that state under every further transition; and a
job terminal in Completed (the non-Cancelled, non-Failed terminal state) has
`processed = total`. -/
theorem job_terminal_states :
    (∀ (e : Engine) (jid : Nat) (j : Job), e.Inv → 0 < e.conc →
      e.findJob jid = some j → j.state = JobState.running →
      ∃ e2 j2, Steps e e2 ∧ e2.findJob jid = some j2 ∧ j2.state.isTerminal = true) ∧
    (∀ (e e2 : Engine) (jid : Nat) (j j2 : Job), e.Inv → Steps e e2 →
      e.findJob jid = some j → j.state.isTerminal = true →
      e2.findJob jid = some j2 → j2 = j) ∧
    (∀ (e : Engine) (j : Job), e.Inv → j ∈ e.jobs → j.state = JobState.completed →
      j.counters.processed = j.counters.total) := by
  refine ⟨?_, ?_, ?_⟩
  · intro e jid j hInv hconc hf hrun
    obtain ⟨hsteps, j2, hf2, hst⟩ :=
      runToTerminal_spec j.fuelOf e jid j hInv hconc hf hrun (Nat.le_refl _)
    refine ⟨_, j2, hsteps, hf2, ?_⟩
    rw [hst]
    cases j.cancelFlag <;> rfl
  · intro e e2 jid j j2 hInv hsteps hf hterm hf2
    rcases steps_terminal_frame hInv hsteps hf hterm with hnone | hsome
    · rw [hf2] at hnone
      cases hnone
    · rw [hf2] at hsome
      exact Option.some.inj hsome
  · intro e j hInv hm hcomp
    obtain ⟨hco, _⟩ := hInv.1 j hm
    obtain ⟨hq, hifl⟩ := hco.2.2.2.1 (Or.inl hcomp)
    have h2 := hco.2.1
    rw [hq, hifl] at h2
    simpa using h2

/-- C4 witness: the running concrete job is driven to a terminal state; the
completed concrete job is frozen and satisfies `processed = total`. -/
theorem job_terminal_states_witness :
    Engine.Inv exEngine ∧ 0 < exEngine.conc ∧ exEngine.findJob 0 = some exJob ∧
    exJob.state = JobState.running ∧
    (∃ e2 j2, Steps exEngine e2 ∧ e2.findJob 0 = some j2 ∧ j2.state.isTerminal = true) ∧
    Engine.Inv exEngineDone ∧ exJobDone ∈ exEngineDone.jobs ∧
    exJobDone.state = JobState.completed ∧
    exJobDone.counters.processed = exJobDone.counters.total :=
  ⟨by decide, by decide, by decide, by decide,
    job_terminal_states.1 exEngine 0 exJob (by decide) (by decide) (by decide) (by decide),
    by decide, by decide, by decide,
    job_terminal_states.2.2 exEngineDone exJobDone (by decide) (by decide) (by decide)⟩

lemma isActive_eq_false_of_terminal {j : Job} (h : j.state.isTerminal = true) :
    j.isActive = false := by
  cases hs : j.state <;> simp_all [Job.isActive, JobState.isTerminal]

/-- C2: creating a second bulk job of an already-active scope class fails
with JobAlreadyActive and leaves the engine (hence the job table) unchanged;
once every job of that scope class is terminal, the same call succeeds and
creates the job. -/
theorem bulk_job_exclusion (e : Engine) (sc : Scope) (hb : sc.isBulk = true) :
    ((∃ j ∈ e.jobs, j.isActive = true ∧ Scope.sameClass sc j.scope = true) →
      createJob e sc = (Except.error EngineError.jobAlreadyActive, e)) ∧
    ((∀ j ∈ e.jobs, Scope.sameClass sc j.scope = true → j.state.isTerminal = true) →
      ∃ e2 j2, createJob e sc = (Except.ok e.nextId, e2) ∧
        e2.findJob e.nextId = some j2 ∧ j2.scope = sc) := by
  have hne : ¬ sc = Scope.explicitList [] := by
    intro heq
    rw [heq] at hb
    cases hb
  constructor
  · intro ⟨j, hj, hact, hcls⟩
    unfold createJob
    rw [if_neg hne, if_pos (by
      rw [hb]
      simp only [Bool.true_and]
      exact List.any_eq_true.mpr ⟨j, hj, by simp [hact, hcls]⟩)]
  · intro hterm
    have hany : (e.jobs.any fun j => j.isActive && Scope.sameClass sc j.scope) = false := by
      rw [List.any_eq_false]
      intro j hj hcontra
      rw [Bool.and_eq_true] at hcontra
      have hfalse := isActive_eq_false_of_terminal (hterm j hj hcontra.2)
      rw [hfalse] at hcontra
      cases hcontra.1
    unfold createJob
    rw [if_neg hne, if_neg (by rw [hany]; simp)]
    cases hsu : e.storeUp with
    | false =>
      rw [if_pos (show (!false) = true by rfl)]
      refine ⟨_, { jobId := e.nextId, scope := sc, state := JobState.failed, counters := { total := 0, processed := 0, valid := 0, invalid := 0, errored := 0 }, cancelFlag := false, queue := [], inFlight := [], finishedAt := some e.now }, rfl, ?_, rfl⟩
      unfold Engine.findJob
      dsimp only
      rw [List.find?_cons_of_pos _ (by simp)]
    | true =>
      rw [if_neg (show ¬ (!true) = true by simp)]
      refine ⟨_, { jobId := e.nextId, scope := sc, state := JobState.running, counters := { total := (enumerateScope e sc).length, processed := 0, valid := 0, invalid := 0, errored := 0 }, cancelFlag := false, queue := enumerateScope e sc, inFlight := [], finishedAt := none }, rfl, ?_, rfl⟩
      unfold Engine.findJob
      dsimp only
      rw [List.find?_cons_of_pos _ (by simp)]

/-- C2 witness: with the concrete running all-scope job active, a second
all-scope createJob fails and changes nothing; in the completed-job engine it
succeeds. -/
theorem bulk_job_exclusion_witness :
    Scope.isBulk Scope.all = true ∧
    (∃ j ∈ exEngine.jobs, j.isActive = true ∧ Scope.sameClass Scope.all j.scope = true) ∧
    createJob exEngine Scope.all = (Except.error EngineError.jobAlreadyActive, exEngine) ∧
    (∀ j ∈ exEngineDone.jobs, Scope.sameClass Scope.all j.scope = true →
      j.state.isTerminal = true) ∧
    (∃ e2 j2, createJob exEngineDone Scope.all = (Except.ok exEngineDone.nextId, e2) ∧
      e2.findJob exEngineDone.nextId = some j2 ∧ j2.scope = Scope.all) :=
  ⟨by decide, by decide,
    (bulk_job_exclusion exEngine Scope.all (by decide)).1 (by decide),
    by decide,
    (bulk_job_exclusion exEngineDone Scope.all (by decide)).2 (by decide)⟩

end Validation

namespace Validation

lemma cancel_eq_of_not_terminal {e : Engine} {jid : Nat} {j : Job}
    (hf : e.findJob jid = some j) (hnt : j.state.isTerminal = false) :
    cancel e jid = (Except.ok (), e.setJob { j with cancelFlag := true }) := by
  unfold cancel
  split
  · rename_i hnone
    simp [hf] at hnone
  · rename_i j2 hf2
    have hj : j2 = j := by rw [hf] at hf2; exact (Option.some.inj hf2).symm
    subst hj
    rw [if_neg (by rw [hnt]; simp)]

/-- C7: `cancel` fails with NotFound for an unknown job, fails with
AlreadyTerminal for a job already in a terminal state (including Completed),
from a non-terminal state it only sets the cancellation flag, and a flagged
Running job is later driven to the Cancelled terminal state. -/
theorem cancel_semantics :
    (∀ (e : Engine) (jid : Nat), e.findJob jid = none →
      cancel e jid = (Except.error EngineError.notFound, e)) ∧
    (∀ (e : Engine) (jid : Nat) (j : Job), e.findJob jid = some j →
      j.state.isTerminal = true →
      cancel e jid = (Except.error EngineError.alreadyTerminal, e)) ∧
    (∀ (e : Engine) (jid : Nat) (j : Job), e.findJob jid = some j →
      j.state.isTerminal = false →
      (cancel e jid).1 = Except.ok () ∧
      (cancel e jid).2.findJob jid = some { j with cancelFlag := true }) ∧
    (∀ (e : Engine) (jid : Nat) (j : Job), e.Inv → 0 < e.conc →
      e.findJob jid = some j → j.state = JobState.running →
      ∃ e2 j2, Steps (cancel e jid).2 e2 ∧ e2.findJob jid = some j2 ∧
        j2.state = JobState.cancelled) := by
  refine ⟨?_, ?_, ?_, ?_⟩
  · intro e jid hf
    unfold cancel
    split
    · rfl
    · rename_i j2 hf2
      rw [hf] at hf2
      cases hf2
  · intro e jid j hf hterm
    unfold cancel
    split
    · rename_i hnone
      simp [hf] at hnone
    · rename_i j2 hf2
      have hj : j2 = j := by rw [hf] at hf2; exact (Option.some.inj hf2).symm
      subst hj
      rw [if_pos hterm]
  · intro e jid j hf hnt
    have hc := cancel_eq_of_not_terminal hf hnt
    rw [hc]
    refine ⟨rfl, ?_⟩
    show (e.setJob { j with cancelFlag := true }).findJob jid = _
    rw [findJob_setJob, hf]
    simp
  · intro e jid j hInv hconc hf hrun
    have hnt : j.state.isTerminal = false := by rw [hrun]; rfl
    have hc := cancel_eq_of_not_terminal hf hnt
    have hstep : Step e (cancel e jid).2 := Step.apiCancel jid e
    have hInv2 := hInv.step hstep
    rw [hc] at hInv2
    have hconc2 : 0 < (e.setJob { j with cancelFlag := true }).conc := by
      rw [setJob_conc]
      exact hconc
    have hf2 : (e.setJob { j with cancelFlag := true }).findJob jid
        = some { j with cancelFlag := true } := by
      rw [findJob_setJob, hf]
      simp
    obtain ⟨hsteps, j2, hfj2, hst2⟩ := runToTerminal_spec
      (Job.fuelOf { j with cancelFlag := true }) (e.setJob { j with cancelFlag := true })
      jid { j with cancelFlag := true } hInv2 hconc2 hf2 hrun (Nat.le_refl _)
    refine ⟨_, j2, ?_, hfj2, ?_⟩
    · rw [hc]
      exact hsteps
    · rw [hst2]
      rfl

/-- C7 witness: cancel on the concrete engine succeeds from Running and the
job is then driven to Cancelled; cancelling the already-Completed job fails
with AlreadyTerminal; an unknown identifier fails with NotFound. -/
theorem cancel_semantics_witness :
    exEngine.findJob 5 = none ∧
    cancel exEngine 5 = (Except.error EngineError.notFound, exEngine) ∧
    exEngineDone.findJob 0 = some exJobDone ∧ exJobDone.state.isTerminal = true ∧
    cancel exEngineDone 0 = (Except.error EngineError.alreadyTerminal, exEngineDone) ∧
    Engine.Inv exEngine ∧ 0 < exEngine.conc ∧ exEngine.findJob 0 = some exJob ∧
    exJob.state = JobState.running ∧
    (∃ e2 j2, Steps (cancel exEngine 0).2 e2 ∧ e2.findJob 0 = some j2 ∧
      j2.state = JobState.cancelled) :=
  ⟨by decide, cancel_semantics.1 exEngine 5 (by decide),
    by decide, by decide, cancel_semantics.2.1 exEngineDone 0 exJobDone (by decide) (by decide),
    by decide, by decide, by decide, by decide,
    cancel_semantics.2.2.2 exEngine 0 exJob (by decide) (by decide) (by decide) (by decide)⟩

end Validation

namespace Validation

lemma findItem_setValidity (e : Engine) (iid : Nat) (v : Validity) (k : Nat) :
    (setValidity e iid v).findItem k
      = (e.findItem k).map (fun it => if it.itemId = iid then { it with validity := v } else it) := by
  unfold setValidity Engine.findItem
  show (e.catalog.map fun it => if it.itemId = iid then { it with validity := v } else it).find? _ = _
  rw [List.find?_map]
  have hpf : ((fun it : CatalogItem => decide (it.itemId = k)) ∘
      fun it : CatalogItem => if it.itemId = iid then { it with validity := v } else it)
      = fun it : CatalogItem => decide (it.itemId = k) := by
    funext y
    by_cases h : y.itemId = iid <;> simp [h]
  rw [hpf]

lemma revalidate_eq_of_found {e : Engine} {iid : Nat} {it : CatalogItem}
    (hf : e.findItem iid = some it) :
    revalidate e iid = (Except.ok { itemId := iid, outcome := (probeCheck (e.net (it.imageRef.getD "")) (it.imageRef.getD "")).outcome, reason := (probeCheck (e.net (it.imageRef.getD "")) (it.imageRef.getD "")).reason, timestamp := e.now }, commitResult e iid (probeCheck (e.net (it.imageRef.getD "")) (it.imageRef.getD "")).outcome) := by
  unfold revalidate
  split
  · rename_i hnone
    simp [hf] at hnone
  · rename_i it2 hf2
    have hit : it2 = it := by rw [hf] at hf2; exact (Option.some.inj hf2).symm
    subst hit
    rfl

/-- C5: `revalidate` always issues a fresh probe through the Probe component
and returns exactly that probe's result: the returned ValidationResult is the
probe of the item's image reference (at least one network call for a
well-formed URL), and it is unchanged when the item's stored validity is
overwritten with any value — it never short-circuits from cached state. -/
theorem revalidate_always_probes (e : Engine) (iid : Nat) (it : CatalogItem) (v : Validity)
    (hf : e.findItem iid = some it) :
    (revalidate e iid).1 = Except.ok
      { itemId := iid,
        outcome := (probeCheck (e.net (it.imageRef.getD "")) (it.imageRef.getD "")).outcome,
        reason := (probeCheck (e.net (it.imageRef.getD "")) (it.imageRef.getD "")).reason,
        timestamp := e.now } ∧
    (malformedUrl (it.imageRef.getD "") = false →
      1 ≤ (probeCheck (e.net (it.imageRef.getD "")) (it.imageRef.getD "")).networkCalls) ∧
    (revalidate (setValidity e iid v) iid).1 = (revalidate e iid).1 := by
  have h1 := revalidate_eq_of_found hf
  have hid : it.itemId = iid := by simpa using List.find?_some hf
  have hf2 : (setValidity e iid v).findItem iid = some { it with validity := v } := by
    rw [findItem_setValidity, hf]
    simp [hid]
  have h2 := revalidate_eq_of_found hf2
  refine ⟨by rw [h1], ?_, ?_⟩
  · intro hwf
    unfold probeCheck
    rw [if_neg (by rw [hwf]; simp)]
    by_cases he : (classify (e.net (it.imageRef.getD "") 0)).1 = Outcome.error
    · rw [if_pos he]
      show (1 : Nat) ≤ 2
      decide
    · rw [if_neg he]
  · rw [h1, h2]
    rfl

/-- C5 witness: revalidating the concrete unchecked item probes the network
and the result is identical after overwriting the stored validity to
`valid`. -/
theorem revalidate_always_probes_witness :
    exEngine.findItem 0 = some exItem ∧
    malformedUrl (exItem.imageRef.getD "") = false ∧
    1 ≤ (probeCheck (exEngine.net (exItem.imageRef.getD "")) (exItem.imageRef.getD "")).networkCalls ∧
    (revalidate (setValidity exEngine 0 Validity.valid) 0).1 = (revalidate exEngine 0).1 :=
  ⟨by decide, by decide,
    (revalidate_always_probes exEngine 0 exItem Validity.valid (by decide)).2.1 (by decide),
    (revalidate_always_probes exEngine 0 exItem Validity.valid (by decide)).2.2⟩

/-- C6: deleting a job record changes no catalog item — every item's
validity and last-checked timestamp are exactly as before — and on success it
only removes the job's bookkeeping record from the job table. -/
theorem delete_job_pure_bookkeeping (e : Engine) (jid : Nat) :
    (deleteJob e jid).2.catalog = e.catalog ∧
    (∀ iid, (deleteJob e jid).2.findItem iid = e.findItem iid) ∧
    (∀ iid it, e.findItem iid = some it →
      ∃ it2, (deleteJob e jid).2.findItem iid = some it2 ∧
        it2.validity = it.validity ∧ it2.lastCheckedAt = it.lastCheckedAt) ∧
    ((deleteJob e jid).1 = Except.ok () →
      (deleteJob e jid).2.jobs = e.jobs.filter (fun j => j.jobId ≠ jid)) := by
  have hcat : (deleteJob e jid).2.catalog = e.catalog := by
    unfold deleteJob
    split <;> rfl
  have hfind : ∀ iid, (deleteJob e jid).2.findItem iid = e.findItem iid := by
    intro iid
    unfold Engine.findItem
    rw [hcat]
  refine ⟨hcat, hfind, ?_, ?_⟩
  · intro iid it hf
    exact ⟨it, by rw [hfind iid]; exact hf, rfl, rfl⟩
  · unfold deleteJob
    split
    · intro hok
      cases hok
    · intro _
      rfl

/-- C6 witness: deleting the concrete job leaves the catalog untouched and
filters the job table. -/
theorem delete_job_pure_bookkeeping_witness :
    (deleteJob exEngine 0).2.catalog = exEngine.catalog ∧
    exEngine.findItem 0 = some exItem ∧
    (∃ it2, (deleteJob exEngine 0).2.findItem 0 = some it2 ∧
      it2.validity = exItem.validity ∧ it2.lastCheckedAt = exItem.lastCheckedAt) ∧
    ((deleteJob exEngine 0).1 = Except.ok () →
      (deleteJob exEngine 0).2.jobs = exEngine.jobs.filter (fun j => j.jobId ≠ 0)) :=
  ⟨(delete_job_pure_bookkeeping exEngine 0).1, by decide,
    (delete_job_pure_bookkeeping exEngine 0).2.2.1 0 exItem (by decide),
    (delete_job_pure_bookkeeping exEngine 0).2.2.2⟩

end Validation
